import Mathlib

/-!
Verification of the noxtab CDP tool (`src/cdp-tool.js`): a shallow embedding of
the protocol client (`CDPClient`), target selection (`pickTarget`) and session
teardown (`withClient`), with theorems settling the specification claims.
-/

namespace CDP

/-- JSON values as produced by `JSON.parse` on inbound frames.  JavaScript
numbers are modelled as integers (every id and numeric payload the dispatcher
inspects is integral). -/
inductive JVal where
  | null
  | bool (b : Bool)
  | num (n : Int)
  | str (s : String)
  | obj (fields : List (String × JVal))
  | arr (elems : List JVal)

/-- JavaScript truthiness of a possibly-absent (`undefined`) value, as used by
`if (msg.id)`, `if (msg.method)`, `if (flags.target)` and friends. -/
def truthy : Option JVal → Bool
  | none => false
  | some JVal.null => false
  | some (JVal.bool b) => b
  | some (JVal.num n) => decide (n ≠ 0)
  | some (JVal.str s) => decide (s ≠ "")
  | some (JVal.obj _) => true
  | some (JVal.arr _) => true

/-- Association-list lookup with JavaScript `Map.get` semantics (`undefined`
when the key is absent).  Also used for property access on parsed objects. -/
def mapGet [DecidableEq κ] : List (κ × α) → κ → Option α
  | [], _ => none
  | (k, v) :: rest, q => if k = q then some v else mapGet rest q

/-- JavaScript `Map.set`: update in place if the key exists (insertion order
kept), otherwise append a fresh entry. -/
def mapSet [DecidableEq κ] (m : List (κ × α)) (k : κ) (v : α) : List (κ × α) :=
  match mapGet m k with
  | some _ => m.map (fun p => if p.1 = k then (k, v) else p)
  | none => m ++ [(k, v)]

/-- JavaScript `Map.delete`. -/
def mapDelete [DecidableEq κ] : List (κ × α) → κ → List (κ × α)
  | [], _ => []
  | (k, v) :: rest, q => if k = q then mapDelete rest q else (k, v) :: mapDelete rest q

/-- Property access `v.k` on a parsed JSON value (`undefined` on non-objects). -/
def getField : JVal → String → Option JVal
  | JVal.obj fields, k => mapGet fields k
  | _, _ => none

/-- JavaScript `a || b` specialised to a possibly-`undefined` left operand, as
in `msg.result || {}` and `msg.params || {}`. -/
def jsOr (v : Option JVal) (d : JVal) : JVal :=
  if truthy v then v.getD d else d

/-- One escaped character of `JSON.stringify` string output. -/
def escChar (c : Char) : String :=
  if c = '\"' then "\\\"" else if c = '\\' then "\\\\"
  else if c = '\n' then "\\n" else if c = '\t' then "\\t"
  else if c = '\r' then "\\r" else String.singleton c

/-- `JSON.stringify` escaping of a string body. -/
def escString (s : String) : String :=
  String.join (s.toList.map escChar)

/-- `JSON.stringify`, used by the message handler as the fallback text of a
protocol error that carries no `message` field. -/
def stringify : JVal → String
  | JVal.null => "null"
  | JVal.bool b => cond b "true" "false"
  | JVal.num n => toString n
  | JVal.str s => "\"" ++ escString s ++ "\""
  | JVal.obj fs => "\x7b" ++ String.intercalate "," (fs.attach.map (fun p => "\"" ++ escString p.1.1 ++ "\":" ++ stringify p.1.2)) ++ "\x7d"
  | JVal.arr es => "[" ++ String.intercalate "," (es.attach.map (fun p => stringify p.1)) ++ "]"
termination_by v => sizeOf v
decreasing_by
  · have h := List.sizeOf_lt_of_mem p.2
    obtain ⟨⟨a, b⟩, hm⟩ := p
    simp at h ⊢
    omega
  · have h := List.sizeOf_lt_of_mem p.2
    obtain ⟨a, hm⟩ := p
    simp at h ⊢
    omega

/-- JavaScript `String(v)` coercion, used when a value is turned into an
`Error` message. -/
def jsToString : JVal → String
  | JVal.null => "null"
  | JVal.bool b => cond b "true" "false"
  | JVal.num n => toString n
  | JVal.str s => s
  | JVal.obj _ => "[object Object]"
  | JVal.arr es => String.intercalate "," (es.attach.map (fun p => jsToString p.1))
termination_by v => sizeOf v
decreasing_by
  have h := List.sizeOf_lt_of_mem p.2
  obtain ⟨a, hm⟩ := p
  simp at h ⊢
  omega

/-- The message of the `Error` built by the dispatcher from an inbound `error`
payload: `msg.error.message || JSON.stringify(msg.error)`. -/
def errMessage (e : JVal) : String :=
  if truthy (getField e "message") then jsToString ((getField e "message").getD JVal.null)
  else stringify e

/-- The eventual fate of the promise returned by one `send` call.  Each
constructor corresponds to one settlement site in `cdp-tool.js`: `cb.resolve`
(matched response), `cb.reject` in the message handler (inbound `error`
payload, the spec's ProtocolError), `cb.reject` in the close handler (the
spec's ConnectionError), and `reject(err)` in the `ws.send` write callback. -/
inductive Outcome where
  | resolved (result : JVal)
  | protocolError (message : String)
  | connectionError (message : String)
  | writeError

/-- The mutable state of one `CDPClient` after `connect` succeeded:
`this.id` (the id counter), `this.pending` (a `Map` from wire id to the
resolve/reject pair of the promise created by the `send` that allocated that
id — promises are identified here by that same wire id, which is unique per
connection), `this.eventHandlers` (a `Map` from method name to the number of
handlers pushed, handlers being opaque), plus two observation logs:
`promises` records each settled promise's outcome, and `firedEvents` records
every event-handler invocation `(method, handler index, params)` in order. -/
structure ClientState where
  nextId : Int
  pending : List (Int × Int)
  promises : List (Int × Outcome)
  eventHandlers : List (String × Nat)
  firedEvents : List (String × Nat × JVal)

/-- The client state straight after the constructor and a successful
`connect`: `this.id = 0`, both maps empty, nothing settled or fired. -/
def initState : ClientState :=
  { nextId := 0, pending := [], promises := [], eventHandlers := [], firedEvents := [] }

/-- Settling a JavaScript promise: the first call to `resolve`/`reject` wins,
later settlements of the same promise are no-ops. -/
def settle (m : List (Int × Outcome)) (k : Int) (v : Outcome) : List (Int × Outcome) :=
  match mapGet m k with
  | some _ => m
  | none => m ++ [(k, v)]

/-- `CDPClient.send(method, params)`: pre-increment the id counter, record a
PendingCall keyed by the new id, and build the outbound frame
`{id, method, params}`.  Returns the new state, the allocated id, and the
outbound frame.  (The `ws.send` write-error callback is modelled separately by
`sendWriteError`.) -/
def send (st : ClientState) (method : String) (params : JVal) : ClientState × Int × JVal :=
  let id := st.nextId + 1
  let payload := JVal.obj [("id", JVal.num id), ("method", JVal.str method), ("params", params)]
  ({ st with nextId := id, pending := mapSet st.pending id id }, id, payload)

/-- The `ws.send` callback path for a synchronous write failure: the
PendingCall for `id` is deleted and its promise rejected with the write
error. -/
def sendWriteError (st : ClientState) (id : Int) : ClientState :=
  { st with pending := mapDelete st.pending id,
            promises := settle st.promises id Outcome.writeError }

/-- The response half of the inbound dispatcher, reached when `msg.id` is
truthy and a number `n`: look up the PendingCall, silently drop the frame if
absent, otherwise delete it and reject with a ProtocolError when `msg.error`
is truthy, else resolve with `msg.result || {}`. -/
def handleResponse (st : ClientState) (n : Int) (msg : JVal) : ClientState :=
  match mapGet st.pending n with
  | none => st
  | some p =>
    if truthy (getField msg "error") then
      { st with pending := mapDelete st.pending n,
                promises := settle st.promises p (Outcome.protocolError (errMessage ((getField msg "error").getD JVal.null))) }
    else
      { st with pending := mapDelete st.pending n,
                promises := settle st.promises p (Outcome.resolved (jsOr (getField msg "result") (JVal.obj []))) }

/-- The event half of the inbound dispatcher, reached when `msg.id` is falsy:
if `msg.method` is truthy, look up its handler list (a `Map` keyed by strings,
so a non-string method never matches) and invoke every handler in registration
order with `msg.params || {}`; unknown methods are dropped silently. -/
def handleEvent (st : ClientState) (msg : JVal) : ClientState :=
  if truthy (getField msg "method") then
    match getField msg "method" with
    | some (JVal.str m) =>
      match mapGet st.eventHandlers m with
      | none => st
      | some k =>
        { st with firedEvents := st.firedEvents ++ (List.range k).map (fun j => (m, j, jsOr (getField msg "params") (JVal.obj []))) }
    | _ => st
  else st

/-- The `ws.on('message', ...)` handler of `CDPClient.connect`, applied to the
parsed frame: the `id` field is tested first and a truthy id makes the frame a
response (the handler returns without ever consulting `msg.method`); only a
falsy id lets the event branch run. -/
def onMessage (st : ClientState) (msg : JVal) : ClientState :=
  if truthy (getField msg "id") then
    match getField msg "id" with
    | some (JVal.num n) => handleResponse st n msg
    | _ => st
  else handleEvent st msg

/-- The `ws.on('close', ...)` handler: reject every outstanding PendingCall
with `Error('WebSocket closed')`, then clear the pending map. -/
def rejectAll : List (Int × Int) → List (Int × Outcome) → List (Int × Outcome)
  | [], ps => ps
  | (_, p) :: rest, ps => rejectAll rest (settle ps p (Outcome.connectionError "WebSocket closed"))

/-- `ws.on('close', ...)` of `CDPClient.connect`: fail all outstanding calls,
empty the pending set. -/
def onClose (st : ClientState) : ClientState :=
  { st with promises := rejectAll st.pending st.promises, pending := [] }

/-- `CDPClient.on(method, handler)` (the source's `on` is a reserved word
here): push one (opaque) handler onto the list registered for `method`,
creating the list if absent. -/
def clientOn (st : ClientState) (method : String) : ClientState :=
  { st with eventHandlers := mapSet st.eventHandlers method ((mapGet st.eventHandlers method).getD 0 + 1) }

/-- Process a list of inbound frames in arrival order. -/
def deliverAll (st : ClientState) (frames : List JVal) : ClientState :=
  frames.foldl onMessage st

/-- The state after issuing `n` calls on a fresh connection. -/
def sendMany : Nat → ClientState
  | 0 => initState
  | n + 1 => (send (sendMany n) "method" (JVal.obj [])).1

/-- The ids allocated to `n` calls issued on a fresh connection: 1, …, n. -/
def callIds (n : Nat) : List Int :=
  (List.range n).map (fun k : Nat => (k : Int) + 1)

/-- A response frame `{"id": i, "result": r}`. -/
def respFrame (i : Int) (r : JVal) : JVal :=
  JVal.obj [("id", JVal.num i), ("result", r)]

/-- Is `pat` a prefix of `s` (character lists)? -/
def startsWithL : List Char → List Char → Bool
  | _, [] => true
  | [], _ :: _ => false
  | c :: cs, p :: ps => decide (c = p) && startsWithL cs ps

/-- JavaScript `String.prototype.includes`: case-sensitive plain substring
containment (character lists). -/
def containsL : List Char → List Char → Bool
  | [], pat => startsWithL [] pat
  | c :: cs, pat => startsWithL (c :: cs) pat || containsL cs pat

/-- JavaScript `s.includes(pat)` on strings. -/
def strIncludes (s pat : String) : Bool :=
  containsL s.toList pat.toList

/-- One discovery target, with the fields `pickTarget` reads.  Fields are
optional because the discovery JSON may omit them (the source guards with
`t.url || ''` and `t.title || ''`). -/
structure Target where
  id : Option String
  url : Option String
  title : Option String
deriving DecidableEq, Repr

/-- The selection flags handed to `pickTarget` (`--target`,
`--url-contains`, `--title-contains`). -/
structure Flags where
  target : Option String
  urlContains : Option String
  titleContains : Option String
deriving DecidableEq, Repr

/-- JavaScript truthiness of a possibly-absent string flag (an empty string
is falsy, so an empty flag behaves as unset). -/
def truthyS : Option String → Bool
  | none => false
  | some s => decide (s ≠ "")

/-- The result of `pickTarget`: a chosen target or a thrown `Error` with the
source's message. -/
inductive PickResult where
  | ok (t : Target)
  | err (msg : String)
deriving DecidableEq, Repr

/-- The two sequential substring filters of `pickTarget`: keep targets whose
url contains `flags.urlContains` (when that flag is truthy), then keep
targets whose title contains `flags.titleContains` (when truthy). -/
def applyFilters (targets : List Target) (flags : Flags) : List Target :=
  let f1 := if truthyS flags.urlContains then
      targets.filter (fun t => strIncludes (t.url.getD "") (flags.urlContains.getD "")) else targets
  if truthyS flags.titleContains then
    f1.filter (fun t => strIncludes (t.title.getD "") (flags.titleContains.getD "")) else f1

/-- `pickTarget(targets, flags)`: throw on an empty list; with a truthy
`--target` flag return the first target with that exact id (substring flags
ignored) or throw; otherwise apply the substring filters and return the first
survivor in discovery order, throwing if none survives. -/
def pickTarget (targets : List Target) (flags : Flags) : PickResult :=
  if targets.length = 0 then PickResult.err "No page targets found"
  else if truthyS flags.target then
    match targets.find? (fun t => t.id == flags.target) with
    | some exact => PickResult.ok exact
    | none => PickResult.err ("Target id not found: " ++ flags.target.getD "")
  else
    match applyFilters targets flags with
    | [] => PickResult.err "No targets matched the provided filters"
    | t :: _ => PickResult.ok t

/-- Observable actions of `withClient` after the client object exists:
the three domain-enable calls, the caller-supplied body, and `close()`. -/
inductive SessionAct where
  | enable (domain : String)
  | runBody
  | close
deriving DecidableEq, Repr

/-- The outcomes of the awaited steps inside `withClient`'s `try` block: each
of the three `client.send('…enable')` calls and the caller-supplied `fn` can
either complete or throw (a thrown value is its `Error` message). -/
structure SessionRun where
  pageEnable : Except String Unit
  runtimeEnable : Except String Unit
  logEnable : Except String Unit
  body : Except String Unit

/-- The `try` block of `withClient`: run
`send('Page.enable'); send('Runtime.enable'); send('Log.enable'); fn(...)` in
order, stopping at the first step that throws.  Returns the trace of actions
that actually ran and the block's completion (normal or abrupt). -/
def tryBlock (r : SessionRun) : List SessionAct × Except String Unit :=
  match r.pageEnable with
  | Except.error e => ([SessionAct.enable "Page.enable"], Except.error e)
  | Except.ok _ =>
    match r.runtimeEnable with
    | Except.error e =>
      ([SessionAct.enable "Page.enable", SessionAct.enable "Runtime.enable"], Except.error e)
    | Except.ok _ =>
      match r.logEnable with
      | Except.error e =>
        ([SessionAct.enable "Page.enable", SessionAct.enable "Runtime.enable",
          SessionAct.enable "Log.enable"], Except.error e)
      | Except.ok _ =>
        match r.body with
        | Except.error e =>
          ([SessionAct.enable "Page.enable", SessionAct.enable "Runtime.enable",
            SessionAct.enable "Log.enable", SessionAct.runBody], Except.error e)
        | Except.ok _ =>
          ([SessionAct.enable "Page.enable", SessionAct.enable "Runtime.enable",
            SessionAct.enable "Log.enable", SessionAct.runBody], Except.ok ())

/-- `withClient` from `await client.connect()` on (discovery and selection
happen before the client exists and cannot reach `close`).  If `connect`
throws, the `try` is never entered and `close()` is not called; once
connected, the `try`/`finally` runs the block and then always appends
`close()`, re-raising the block's abrupt completion afterwards. -/
def withClient (connect : Except String Unit) (r : SessionRun) :
    List SessionAct × Except String Unit :=
  match connect with
  | Except.error e => ([], Except.error e)
  | Except.ok _ =>
    let res := tryBlock r
    (res.1 ++ [SessionAct.close], res.2)

/-- One atomic state change of an open client: a `send`, an inbound frame, a
write-error callback, a subscription, or the connection-close event.  This is
the single-threaded event loop of the source — exactly one of these runs at a
time. -/
inductive Step : ClientState → ClientState → Prop where
  | send (st : ClientState) (m : String) (p : JVal) : Step st (send st m p).1
  | message (st : ClientState) (f : JVal) : Step st (onMessage st f)
  | writeErr (st : ClientState) (id : Int) : Step st (sendWriteError st id)
  | subscribe (st : ClientState) (m : String) : Step st (clientOn st m)
  | close (st : ClientState) : Step st (onClose st)

/-- The client states reachable from a fresh connection. -/
inductive Reachable : ClientState → Prop where
  | init : Reachable initState
  | step {st st' : ClientState} : Reachable st → Step st st' → Reachable st'

theorem mapGet_nil [DecidableEq κ] (q : κ) : mapGet ([] : List (κ × α)) q = none := rfl

theorem mapGet_of_forall_ne [DecidableEq κ] {m : List (κ × α)} {q : κ}
    (h : ∀ pr ∈ m, pr.1 ≠ q) : mapGet m q = none := by
  induction m with
  | nil => rfl
  | cons a rest ih =>
    obtain ⟨k, v⟩ := a
    have hk : k ≠ q := h (k, v) (List.mem_cons_self _ _)
    simp [mapGet, hk]
    exact ih fun pr hpr => h pr (List.mem_cons_of_mem _ hpr)

theorem mapGet_append_left [DecidableEq κ] {m : List (κ × α)} {q : κ} {v : α}
    (h : mapGet m q = some v) (l : List (κ × α)) : mapGet (m ++ l) q = some v := by
  induction m with
  | nil => simp [mapGet] at h
  | cons a rest ih =>
    obtain ⟨k, w⟩ := a
    by_cases hk : k = q
    · simpa [mapGet, hk] using by simpa [mapGet, hk] using h
    · simp [mapGet, hk] at h ⊢
      exact ih h

theorem mapGet_append_right [DecidableEq κ] {m : List (κ × α)} {q : κ}
    (h : mapGet m q = none) (l : List (κ × α)) : mapGet (m ++ l) q = mapGet l q := by
  induction m with
  | nil => rfl
  | cons a rest ih =>
    obtain ⟨k, w⟩ := a
    by_cases hk : k = q
    · simp [mapGet, hk] at h
    · simp [mapGet, hk] at h ⊢
      exact ih h

theorem mapGet_delete_ne [DecidableEq κ] (m : List (κ × α)) {q k : κ} (h : q ≠ k) :
    mapGet (mapDelete m k) q = mapGet m q := by
  induction m with
  | nil => rfl
  | cons a rest ih =>
    obtain ⟨k', v⟩ := a
    by_cases hk : k' = k
    · subst hk
      have hkq : ¬ k' = q := fun hq => h hq.symm
      simp [mapDelete, mapGet, hkq, ih]
    · simp [mapDelete, hk, mapGet, ih]

theorem mapDelete_sublist [DecidableEq κ] (m : List (κ × α)) (k : κ) :
    (mapDelete m k).Sublist m := by
  induction m with
  | nil => simp [mapDelete]
  | cons a rest ih =>
    obtain ⟨k', v⟩ := a
    by_cases hk : k' = k
    · simp [mapDelete, hk]
      exact ih.cons _
    · simp [mapDelete, hk]
      exact ih

theorem settle_preserves {m : List (Int × Outcome)} {q : Int} {o : Outcome}
    (h : mapGet m q = some o) (k : Int) (v : Outcome) :
    mapGet (settle m k v) q = some o := by
  unfold settle
  match hk : mapGet m k with
  | some _ => exact h
  | none => exact mapGet_append_left h _

theorem settle_same {m : List (Int × Outcome)} {k : Int} (hk : mapGet m k = none)
    (v : Outcome) : mapGet (settle m k v) k = some v := by
  unfold settle
  rw [hk]
  rw [mapGet_append_right hk]
  simp [mapGet]

theorem settle_other {m : List (Int × Outcome)} {q k : Int} (h : q ≠ k) (v : Outcome) :
    mapGet (settle m k v) q = mapGet m q := by
  unfold settle
  match hk : mapGet m k with
  | some _ => rfl
  | none =>
    match hq : mapGet m q with
    | some _ => rw [mapGet_append_left hq]
    | none =>
      have hkq : ¬ k = q := fun e => h e.symm
      rw [mapGet_append_right hq]
      simp [mapGet, hkq]

theorem onMessage_eq_handleResponse (st : ClientState) {msg : JVal} {n : Int}
    (hid : getField msg "id" = some (JVal.num n)) (hn : n ≠ 0) :
    onMessage st msg = handleResponse st n msg := by
  unfold onMessage
  rw [hid]
  have htr : truthy (some (JVal.num n)) = true := by simp [truthy, hn]
  rw [htr]
  simp

theorem onMessage_eq_handleEvent (st : ClientState) {msg : JVal}
    (hid : truthy (getField msg "id") = false) :
    onMessage st msg = handleEvent st msg := by
  unfold onMessage
  rw [hid]
  simp

theorem handleResponse_unmatched (st : ClientState) {n : Int} (msg : JVal)
    (hp : mapGet st.pending n = none) : handleResponse st n msg = st := by
  unfold handleResponse
  rw [hp]

theorem handleResponse_matched_resolve (st : ClientState) {n p : Int} {msg : JVal}
    (hp : mapGet st.pending n = some p) (herr : truthy (getField msg "error") = false) :
    handleResponse st n msg =
      { st with pending := mapDelete st.pending n,
                promises := settle st.promises p (Outcome.resolved (jsOr (getField msg "result") (JVal.obj []))) } := by
  unfold handleResponse
  rw [hp, herr]
  simp

theorem handleResponse_matched_reject (st : ClientState) {n p : Int} {msg : JVal}
    (hp : mapGet st.pending n = some p) (herr : truthy (getField msg "error") = true) :
    handleResponse st n msg =
      { st with pending := mapDelete st.pending n,
                promises := settle st.promises p (Outcome.protocolError (errMessage ((getField msg "error").getD JVal.null))) } := by
  unfold handleResponse
  rw [hp, herr]
  simp

/-- A matched response frame `{"id": i, "result": r}` deletes the PendingCall
and resolves its promise with `r || {}`. -/
theorem onMessage_respFrame_matched (st : ClientState) {i p : Int} (hi : i ≠ 0)
    (hp : mapGet st.pending i = some p) (r : JVal) :
    onMessage st (respFrame i r) =
      { st with pending := mapDelete st.pending i,
                promises := settle st.promises p (Outcome.resolved (jsOr (some r) (JVal.obj []))) } := by
  rw [onMessage_eq_handleResponse st (show getField (respFrame i r) "id" = some (JVal.num i) from rfl) hi]
  rw [handleResponse_matched_resolve st hp (show truthy (getField (respFrame i r) "error") = false from rfl)]
  rfl

theorem handleEvent_promises (st : ClientState) (msg : JVal) :
    (handleEvent st msg).promises = st.promises ∧
    (handleEvent st msg).pending = st.pending ∧
    (handleEvent st msg).nextId = st.nextId := by
  unfold handleEvent
  split
  · split <;> try exact ⟨rfl, rfl, rfl⟩
    split <;> exact ⟨rfl, rfl, rfl⟩
  · exact ⟨rfl, rfl, rfl⟩

theorem handleResponse_events (st : ClientState) (n : Int) (msg : JVal) :
    (handleResponse st n msg).firedEvents = st.firedEvents ∧
    (handleResponse st n msg).eventHandlers = st.eventHandlers ∧
    (handleResponse st n msg).nextId = st.nextId := by
  unfold handleResponse
  split
  · exact ⟨rfl, rfl, rfl⟩
  · split <;> exact ⟨rfl, rfl, rfl⟩

/-- Whatever frame arrives, a promise that is already settled keeps its
outcome. -/
theorem onMessage_settled_mono {st : ClientState} {q : Int} {o : Outcome}
    (h : mapGet st.promises q = some o) (msg : JVal) :
    mapGet (onMessage st msg).promises q = some o := by
  unfold onMessage
  split
  · split
    · next n _ =>
      unfold handleResponse
      split
      · exact h
      · split <;> exact settle_preserves h _ _
    · exact h
  · rw [(handleEvent_promises st msg).1]
    exact h

theorem deliverAll_settled_mono {st : ClientState} {q : Int} {o : Outcome}
    (h : mapGet st.promises q = some o) (frames : List JVal) :
    mapGet (deliverAll st frames).promises q = some o := by
  induction frames generalizing st with
  | nil => exact h
  | cons f rest ih => exact ih (onMessage_settled_mono h f)

theorem mapGet_dup_of_mem {l : List Int} {i : Int} (h : i ∈ l) :
    mapGet (l.map (fun j => (j, j))) i = some i := by
  induction l with
  | nil => cases h
  | cons a rest ih =>
    by_cases ha : a = i
    · simp [mapGet, ha]
    · rcases List.mem_cons.mp h with h1 | h2
      · exact absurd h1.symm ha
      · simp [mapGet, ha, ih h2]

theorem mem_callIds {n : Nat} {i : Int} : i ∈ callIds n ↔ 1 ≤ i ∧ i ≤ (n : Int) := by
  unfold callIds
  simp only [List.mem_map, List.mem_range]
  constructor
  · rintro ⟨k, hk, rfl⟩
    omega
  · rintro ⟨h1, h2⟩
    exact ⟨(i - 1).toNat, by omega, by omega⟩

theorem callIds_nodup (n : Nat) : (callIds n).Nodup := by
  unfold callIds
  exact (List.nodup_range n).map (fun a b h => by omega)

theorem callIds_succ (n : Nat) : callIds (n + 1) = callIds n ++ [(n : Int) + 1] := by
  unfold callIds
  rw [List.range_succ, List.map_append]
  rfl

theorem sendMany_spec (n : Nat) :
    (sendMany n).nextId = (n : Int) ∧
    (sendMany n).pending = (callIds n).map (fun j => (j, j)) ∧
    (sendMany n).promises = [] := by
  induction n with
  | zero => exact ⟨rfl, rfl, rfl⟩
  | succ n ih =>
    obtain ⟨h1, h2, h3⟩ := ih
    have hfresh : mapGet ((callIds n).map (fun j => (j, j))) ((n : Int) + 1) = none := by
      apply mapGet_of_forall_ne
      intro pr hpr
      obtain ⟨j, hj, rfl⟩ := List.mem_map.mp hpr
      have := mem_callIds.mp hj
      simp only []
      omega
    refine ⟨?_, ?_, ?_⟩
    · show (send (sendMany n) "method" (JVal.obj [])).1.nextId = ((n + 1 : Nat) : Int)
      simp [send, h1]
    · show (send (sendMany n) "method" (JVal.obj [])).1.pending = _
      simp only [send]
      rw [h2, h1, callIds_succ]
      unfold mapSet
      rw [hfresh, List.map_append]
      rfl
    · exact h3

/-- Delivering response frames for a duplicate-free list of pending ids
settles each of those ids' promises with its own response's result. -/
theorem deliver_resolves (ds : List Int) :
    ∀ (st : ClientState) (res : Int → JVal),
      ds.Nodup →
      (∀ i ∈ ds, i ≠ 0) →
      (∀ i ∈ ds, mapGet st.pending i = some i) →
      (∀ i ∈ ds, mapGet st.promises i = none) →
      ∀ i ∈ ds, mapGet (deliverAll st (ds.map (fun j => respFrame j (res j)))).promises i
        = some (Outcome.resolved (jsOr (some (res i)) (JVal.obj []))) := by
  induction ds with
  | nil => intro st res _ _ _ _ i hi; cases hi
  | cons d rest ih =>
    intro st res hnd hnz hpend hunset i hi
    have hd0 : d ≠ 0 := hnz d (List.mem_cons_self _ _)
    have hpd : mapGet st.pending d = some d := hpend d (List.mem_cons_self _ _)
    have hdrest : d ∉ rest := (List.nodup_cons.mp hnd).1
    have hstep := onMessage_respFrame_matched st hd0 hpd (res d)
    have hfold : deliverAll st ((d :: rest).map (fun j => respFrame j (res j)))
        = deliverAll (onMessage st (respFrame d (res d))) (rest.map (fun j => respFrame j (res j))) := rfl
    rw [hfold, hstep]
    have hsettled : mapGet (settle st.promises d (Outcome.resolved (jsOr (some (res d)) (JVal.obj [])))) d
        = some (Outcome.resolved (jsOr (some (res d)) (JVal.obj []))) :=
      settle_same (hunset d (List.mem_cons_self _ _)) _
    rcases List.mem_cons.mp hi with h1 | h2
    · subst h1
      exact deliverAll_settled_mono hsettled _
    · apply ih _ res (List.nodup_cons.mp hnd).2
        (fun j hj => hnz j (List.mem_cons_of_mem _ hj))
        (fun j hj => by
          have hne : j ≠ d := fun e => hdrest (e ▸ hj)
          simp only []
          rw [mapGet_delete_ne _ hne]
          exact hpend j (List.mem_cons_of_mem _ hj))
        (fun j hj => by
          have hne : j ≠ d := fun e => hdrest (e ▸ hj)
          simp only []
          rw [settle_other hne]
          exact hunset j (List.mem_cons_of_mem _ hj))
        i h2

/-- Claim C1: for every set of N calls issued on one open connection,
delivering the N response frames in any permutation resolves each call's
promise with exactly the response whose id equals the id allocated to that
call — never another call's response; correlation is by id only, independent
of arrival position. -/
theorem responses_correlate_by_id (N : Nat) (res : Int → JVal) (order : List Int)
    (hperm : order.Perm (callIds N)) :
    ∀ i ∈ callIds N,
      mapGet (deliverAll (sendMany N) (order.map (fun j => respFrame j (res j)))).promises i
        = some (Outcome.resolved (jsOr (some (res i)) (JVal.obj []))) := by
  intro i hi
  obtain ⟨h1, h2, h3⟩ := sendMany_spec N
  exact deliver_resolves order (sendMany N) res
    (hperm.nodup_iff.mpr (callIds_nodup N))
    (fun j hj => by have := mem_callIds.mp (hperm.subset hj); omega)
    (fun j hj => by rw [h2]; exact mapGet_dup_of_mem (hperm.subset hj))
    (fun j hj => by rw [h3]; rfl)
    i (hperm.mem_iff.mpr hi)

/-- Witness for C1: two calls (ids 1 and 2), responses delivered in reverse
order; call 1 still receives response 1. -/
theorem responses_correlate_by_id_witness :
    mapGet (deliverAll (sendMany 2) (([2, 1] : List Int).map (fun j => respFrame j (JVal.num j)))).promises 1
      = some (Outcome.resolved (jsOr (some (JVal.num 1)) (JVal.obj []))) :=
  responses_correlate_by_id 2 (fun j => JVal.num j) [2, 1] (by decide) 1 (by decide)

theorem settle_already {ps : List (Int × Outcome)} {k : Int} {o : Outcome}
    (h : mapGet ps k = some o) (v : Outcome) : settle ps k v = ps := by
  unfold settle
  rw [h]

theorem rejectAll_preserves {ps : List (Int × Outcome)} {q : Int} {o : Outcome}
    (h : mapGet ps q = some o) (l : List (Int × Int)) :
    mapGet (rejectAll l ps) q = some o := by
  induction l generalizing ps with
  | nil => exact h
  | cons a rest ih =>
    obtain ⟨k, p⟩ := a
    exact ih (settle_preserves h _ _)

theorem rejectAll_mem (l : List (Int × Int)) :
    ∀ ps : List (Int × Outcome),
      (∀ pr ∈ l, mapGet ps pr.2 = none ∨
        mapGet ps pr.2 = some (Outcome.connectionError "WebSocket closed")) →
      ∀ pr ∈ l, mapGet (rejectAll l ps) pr.2 = some (Outcome.connectionError "WebSocket closed") := by
  induction l with
  | nil => intro ps _ pr hpr; cases hpr
  | cons a rest ih =>
    obtain ⟨k, p⟩ := a
    intro ps hps pr hpr
    have hhead : mapGet (settle ps p (Outcome.connectionError "WebSocket closed")) p
        = some (Outcome.connectionError "WebSocket closed") := by
      rcases hps (k, p) (List.mem_cons_self _ _) with h | h
      · exact settle_same h _
      · rw [settle_already h]
        exact h
    rcases List.mem_cons.mp hpr with h1 | h2
    · subst h1
      exact rejectAll_preserves hhead rest
    · apply ih (settle ps p (Outcome.connectionError "WebSocket closed")) _ pr h2
      intro pr' hpr'
      by_cases he : pr'.2 = p
      · right
        rw [he]
        exact hhead
      · rw [settle_other he]
        exact hps pr' (List.mem_cons_of_mem _ hpr')

/-- Claim C2 (amended): when the connection closes with calls outstanding,
every outstanding PendingCall's promise is rejected with the connection-close
error — whose message in the code is "WebSocket closed", not the spec's
"connection closed" — and the pending set is left empty. -/
theorem close_fails_all_outstanding (st : ClientState)
    (h : ∀ pr ∈ st.pending, mapGet st.promises pr.2 = none) :
    (∀ pr ∈ st.pending,
        mapGet (onClose st).promises pr.2 = some (Outcome.connectionError "WebSocket closed"))
    ∧ (onClose st).pending = [] := by
  refine ⟨?_, rfl⟩
  intro pr hpr
  exact rejectAll_mem st.pending st.promises (fun pr' hpr' => Or.inl (h pr' hpr')) pr hpr

/-- The state of a fresh connection after two calls (ids 1 and 2). -/
def twoCallState : ClientState :=
  (send (send initState "Page.enable" (JVal.obj [])).1 "Runtime.enable" (JVal.obj [])).1

/-- Witness for C2: closing with calls 1 and 2 outstanding rejects call 1's
promise with the connection-close error and empties the pending set. -/
theorem close_fails_all_outstanding_witness :
    mapGet (onClose twoCallState).promises 1 = some (Outcome.connectionError "WebSocket closed")
    ∧ (onClose twoCallState).pending = [] :=
  ⟨(close_fails_all_outstanding twoCallState (fun pr _ => rfl)).1 (1, 1) (by
      show (1, 1) ∈ [((1 : Int), (1 : Int)), (2, 2)]
      simp),
   (close_fails_all_outstanding twoCallState (fun pr _ => rfl)).2⟩

/-- Counterexample for C2 as stated: the rejection produced by the close
handler carries the message "WebSocket closed", not the spec's quoted
"connection closed". -/
theorem close_message_counterexample :
    mapGet (onClose (send initState "Page.enable" (JVal.obj [])).1).promises 1
      = some (Outcome.connectionError "WebSocket closed")
    ∧ mapGet (onClose (send initState "Page.enable" (JVal.obj [])).1).promises 1
      ≠ some (Outcome.connectionError "connection closed") := by
  refine ⟨rfl, ?_⟩
  intro h
  rw [show mapGet (onClose (send initState "Page.enable" (JVal.obj [])).1).promises 1
      = some (Outcome.connectionError "WebSocket closed") from rfl] at h
  simp at h

/-- The id-allocation invariant of one open connection: the counter is
non-negative, the pending map's keys are pairwise distinct, and every pending
key lies between 1 and the counter. -/
def IdInv (st : ClientState) : Prop :=
  0 ≤ st.nextId ∧ (st.pending.map Prod.fst).Nodup ∧
    ∀ pr ∈ st.pending, 1 ≤ pr.1 ∧ pr.1 ≤ st.nextId

theorem mapSet_fresh [DecidableEq κ] {m : List (κ × α)} {k : κ} (h : mapGet m k = none)
    (v : α) : mapSet m k v = m ++ [(k, v)] := by
  unfold mapSet
  rw [h]

theorem idInv_of_eq {st st' : ClientState} (h : IdInv st) (hn : st'.nextId = st.nextId)
    (hp : st'.pending.Sublist st.pending) : IdInv st' := by
  obtain ⟨h0, h1, h2⟩ := h
  refine ⟨by omega, h1.sublist (hp.map Prod.fst), fun pr hpr => ?_⟩
  have := h2 pr (hp.subset hpr)
  omega

theorem onMessage_shape (st : ClientState) (msg : JVal) :
    (onMessage st msg).nextId = st.nextId ∧
    ((onMessage st msg).pending = st.pending ∨
      ∃ k, (onMessage st msg).pending = mapDelete st.pending k) := by
  unfold onMessage
  split
  · split
    · next n _ =>
      unfold handleResponse
      split
      · exact ⟨rfl, Or.inl rfl⟩
      · split <;> exact ⟨rfl, Or.inr ⟨n, rfl⟩⟩
    · exact ⟨rfl, Or.inl rfl⟩
  · exact ⟨(handleEvent_promises st msg).2.2, Or.inl (handleEvent_promises st msg).2.1⟩

theorem idInv_send {st : ClientState} (h : IdInv st) (m : String) (p : JVal) :
    IdInv (send st m p).1 := by
  obtain ⟨h0, h1, h2⟩ := h
  have hfresh : mapGet st.pending (st.nextId + 1) = none := by
    apply mapGet_of_forall_ne
    intro pr hpr
    have := h2 pr hpr
    omega
  have hpend : (send st m p).1.pending = st.pending ++ [(st.nextId + 1, st.nextId + 1)] := by
    show mapSet st.pending (st.nextId + 1) (st.nextId + 1) = _
    exact mapSet_fresh hfresh _
  refine ⟨by show 0 ≤ st.nextId + 1; omega, ?_, ?_⟩
  · rw [hpend, List.map_append]
    rw [List.nodup_append]
    refine ⟨h1, List.nodup_singleton _, ?_⟩
    intro x hx hy
    obtain ⟨pr, hpr, rfl⟩ := List.mem_map.mp hx
    have := h2 pr hpr
    simp at hy
    omega
  · intro pr hpr
    rw [hpend] at hpr
    rcases List.mem_append.mp hpr with h | h
    · have := h2 pr h
      show 1 ≤ pr.1 ∧ pr.1 ≤ st.nextId + 1
      omega
    · simp at h
      subst h
      show 1 ≤ st.nextId + 1 ∧ st.nextId + 1 ≤ st.nextId + 1
      omega

theorem idInv_step {st st' : ClientState} (h : IdInv st) (hs : Step st st') : IdInv st' := by
  cases hs with
  | send m p => exact idInv_send h m p
  | message f =>
    obtain ⟨hn, hp⟩ := onMessage_shape st f
    rcases hp with hp | ⟨k, hp⟩
    · exact idInv_of_eq h hn (hp ▸ List.Sublist.refl _)
    · exact idInv_of_eq h hn (hp ▸ mapDelete_sublist st.pending k)
  | writeErr id =>
    exact idInv_of_eq h rfl (mapDelete_sublist st.pending id)
  | subscribe m => exact idInv_of_eq h rfl (List.Sublist.refl _)
  | close =>
    exact ⟨h.1, List.nodup_nil, fun pr hpr => by cases hpr⟩

theorem reachable_idInv {st : ClientState} (h : Reachable st) : IdInv st := by
  induction h with
  | init => exact ⟨le_refl 0, List.nodup_nil, fun pr hpr => by cases hpr⟩
  | step _ hs ih => exact idInv_step ih hs

theorem step_nextId_mono {st st' : ClientState} (hs : Step st st') :
    st.nextId ≤ st'.nextId := by
  cases hs with
  | send m p => show st.nextId ≤ st.nextId + 1; omega
  | message f => rw [(onMessage_shape st f).1]
  | writeErr id => exact le_refl _
  | subscribe m => exact le_refl _
  | close => exact le_refl _

/-- Claim C3: call ids are allocated by pre-incrementing a per-connection
counter — the first call on a fresh connection gets id 1, each call returns
the incremented counter (so ids of successive calls strictly increase, the
counter never decreasing across any event-loop step), and in every reachable
state no two live PendingCalls share an id. -/
theorem id_allocation :
    (∀ m p, (send initState m p).2.1 = 1)
    ∧ (∀ st m p, (send st m p).2.1 = st.nextId + 1 ∧ (send st m p).1.nextId = st.nextId + 1)
    ∧ (∀ st m p m' p', (send st m p).2.1 < (send (send st m p).1 m' p').2.1)
    ∧ (∀ st st', Step st st' → st.nextId ≤ st'.nextId)
    ∧ (∀ st, Reachable st → (st.pending.map Prod.fst).Nodup) := by
  refine ⟨fun m p => rfl, fun st m p => ⟨rfl, rfl⟩, fun st m p m' p' => ?_, ?_, ?_⟩
  · show st.nextId + 1 < st.nextId + 1 + 1
    omega
  · exact fun st st' hs => step_nextId_mono hs
  · exact fun st h => (reachable_idInv h).2.1

/-- Witness for C3: a concrete step raises the counter, and the concrete
two-call state (reached by two sends) has duplicate-free pending ids. -/
theorem id_allocation_witness :
    initState.nextId ≤ (send initState "Page.enable" (JVal.obj [])).1.nextId
    ∧ (twoCallState.pending.map Prod.fst).Nodup :=
  ⟨id_allocation.2.2.2.1 initState (send initState "Page.enable" (JVal.obj [])).1
      (Step.send initState "Page.enable" (JVal.obj [])),
   id_allocation.2.2.2.2 twoCallState
      (Reachable.step (Reachable.step Reachable.init (Step.send initState "Page.enable" (JVal.obj [])))
        (Step.send (send initState "Page.enable" (JVal.obj [])).1 "Runtime.enable" (JVal.obj [])))⟩

/-- The state of a fresh connection after one call (id 1). -/
def oneCallState : ClientState := (send initState "Runtime.evaluate" (JVal.obj [])).1

/-- A stray response frame whose id matches no pending call. -/
def strayFrame : JVal := JVal.obj [("id", JVal.num 99), ("result", JVal.obj [])]

/-- The real response to call id 1, carrying `{value: 42}`. -/
def realFrame : JVal :=
  JVal.obj [("id", JVal.num 1), ("result", JVal.obj [("value", JVal.num 42)])]

/-- Claim C4: an inbound frame with a truthy id matching no pending call, and
an event frame whose method has no registered handlers, are both dropped
silently, leaving the client state entirely unchanged; concretely, a stray
`{"id":99,"result":{}}` arriving before the real `{"id":1,"result":{"value":42}}`
has no effect, and call 1 still resolves to `{value:42}`. -/
theorem stray_frames_dropped :
    (∀ (st : ClientState) (f : JVal), truthy (getField f "id") = true →
      (∀ n : Int, getField f "id" = some (JVal.num n) → mapGet st.pending n = none) →
      onMessage st f = st)
    ∧ (∀ (st : ClientState) (f : JVal), truthy (getField f "id") = false →
      (∀ m : String, getField f "method" = some (JVal.str m) → mapGet st.eventHandlers m = none) →
      onMessage st f = st)
    ∧ onMessage oneCallState strayFrame = oneCallState
    ∧ mapGet (onMessage (onMessage oneCallState strayFrame) realFrame).promises 1
        = some (Outcome.resolved (JVal.obj [("value", JVal.num 42)])) := by
  refine ⟨?_, ?_, ?_, ?_⟩
  · intro st f htr hun
    unfold onMessage
    rw [htr]
    simp only [if_true]
    split
    · next n heq => exact handleResponse_unmatched st f (hun n heq)
    · rfl
  · intro st f hfa hun
    rw [onMessage_eq_handleEvent st hfa]
    unfold handleEvent
    split
    · split
      · next m heq =>
        rw [hun m heq]
      · rfl
    · rfl
  · rfl
  · rfl

/-- Witness for C4: the general drop lemmas applied to the concrete stray
frame and a concrete handlerless event frame. -/
theorem stray_frames_dropped_witness :
    onMessage oneCallState strayFrame = oneCallState
    ∧ onMessage oneCallState (JVal.obj [("method", JVal.str "Page.loadEventFired")]) = oneCallState :=
  ⟨stray_frames_dropped.1 oneCallState strayFrame rfl
      (fun n heq => by
        have : n = 99 := by
          have h2 : some (JVal.num 99) = some (JVal.num n) := by
            rw [show getField strayFrame "id" = some (JVal.num 99) from rfl] at heq
            exact heq
          cases h2
          rfl
        rw [this]
        rfl),
   stray_frames_dropped.2.1 oneCallState (JVal.obj [("method", JVal.str "Page.loadEventFired")])
      rfl (fun m heq => by
        have : m = "Page.loadEventFired" := by
          have h2 : some (JVal.str "Page.loadEventFired") = some (JVal.str m) := heq
          cases h2
          rfl
        rw [this]
        rfl)⟩

theorem jsToString_str (s : String) : jsToString (JVal.str s) = s := by
  unfold jsToString
  rfl

theorem errMessage_boom : errMessage (JVal.obj [("message", JVal.str "boom")]) = "boom" := by
  have h : errMessage (JVal.obj [("message", JVal.str "boom")]) = jsToString (JVal.str "boom") := rfl
  rw [h, jsToString_str]

/-- Claim C5: a matched response frame with a truthy `error` field rejects the
call with a ProtocolError built from the error's message, even when a `result`
field is also present — the error branch takes precedence; concretely
`{"id":1,"error":{"message":"boom"},"result":{...}}` fails call 1 with message
"boom". -/
theorem error_takes_precedence :
    (∀ (st : ClientState) (i p : Int), i ≠ 0 → mapGet st.pending i = some p →
      ∀ e r : JVal, truthy (some e) = true →
        onMessage st (JVal.obj [("id", JVal.num i), ("error", e), ("result", r)]) =
          { st with pending := mapDelete st.pending i,
                    promises := settle st.promises p (Outcome.protocolError (errMessage e)) })
    ∧ mapGet (onMessage oneCallState
        (JVal.obj [("id", JVal.num 1), ("error", JVal.obj [("message", JVal.str "boom")]),
                   ("result", JVal.obj [("x", JVal.num 0)])])).promises 1
      = some (Outcome.protocolError "boom") := by
  have hgen : ∀ (st : ClientState) (i p : Int), i ≠ 0 → mapGet st.pending i = some p →
      ∀ e r : JVal, truthy (some e) = true →
        onMessage st (JVal.obj [("id", JVal.num i), ("error", e), ("result", r)]) =
          { st with pending := mapDelete st.pending i,
                    promises := settle st.promises p (Outcome.protocolError (errMessage e)) } := by
    intro st i p hi hp e r he
    rw [onMessage_eq_handleResponse st
      (show getField (JVal.obj [("id", JVal.num i), ("error", e), ("result", r)]) "id"
        = some (JVal.num i) from rfl) hi]
    rw [handleResponse_matched_reject st hp
      (show truthy (getField (JVal.obj [("id", JVal.num i), ("error", e), ("result", r)]) "error")
        = true from he)]
    rfl
  refine ⟨hgen, ?_⟩
  rw [hgen oneCallState 1 1 (by decide) rfl (JVal.obj [("message", JVal.str "boom")])
    (JVal.obj [("x", JVal.num 0)]) rfl]
  show some (Outcome.protocolError (errMessage (JVal.obj [("message", JVal.str "boom")])))
    = some (Outcome.protocolError "boom")
  rw [errMessage_boom]

/-- Witness for C5: the general precedence lemma applied at the concrete
"boom" frame. -/
theorem error_takes_precedence_witness :
    onMessage oneCallState
        (JVal.obj [("id", JVal.num 1), ("error", JVal.obj [("message", JVal.str "boom")]),
                   ("result", JVal.obj [("x", JVal.num 0)])]) =
      { oneCallState with pending := mapDelete oneCallState.pending 1,
                          promises := settle oneCallState.promises 1
                            (Outcome.protocolError (errMessage (JVal.obj [("message", JVal.str "boom")]))) } :=
  error_takes_precedence.1 oneCallState 1 1 (by decide) rfl
    (JVal.obj [("message", JVal.str "boom")]) (JVal.obj [("x", JVal.num 0)]) rfl

/-- Claim C10: inbound dispatch tests the id field before the method field, so
a frame carrying a truthy id is processed exclusively as a response — event
handlers are never invoked and the handler table is untouched, whether or not
the id matches a pending call. -/
theorem id_checked_before_method (st : ClientState) (msg : JVal)
    (hid : truthy (getField msg "id") = true) :
    (onMessage st msg).firedEvents = st.firedEvents
    ∧ (onMessage st msg).eventHandlers = st.eventHandlers := by
  unfold onMessage
  rw [hid]
  simp only [if_true]
  split
  · next n heq =>
    exact ⟨(handleResponse_events st n msg).1, (handleResponse_events st n msg).2.1⟩
  · exact ⟨rfl, rfl⟩

/-- A frame carrying both a truthy id and a method name with a registered
handler. -/
def dualFrame : JVal :=
  JVal.obj [("id", JVal.num 1), ("method", JVal.str "Runtime.consoleAPICalled"),
            ("result", JVal.obj [])]

/-- Witness for C10: even with a handler registered for the frame's method,
a frame with a truthy id fires no event handlers. -/
theorem id_checked_before_method_witness :
    (onMessage (clientOn oneCallState "Runtime.consoleAPICalled") dualFrame).firedEvents
      = (clientOn oneCallState "Runtime.consoleAPICalled").firedEvents
    ∧ (onMessage (clientOn oneCallState "Runtime.consoleAPICalled") dualFrame).eventHandlers
      = (clientOn oneCallState "Runtime.consoleAPICalled").eventHandlers :=
  id_checked_before_method (clientOn oneCallState "Runtime.consoleAPICalled") dualFrame rfl

theorem filter_filter_and (p q : α → Bool) (l : List α) :
    (l.filter p).filter q = l.filter (fun a => p a && q a) := by
  induction l with
  | nil => rfl
  | cons a rest ih =>
    by_cases hp : p a <;> by_cases hq : q a <;>
      simp [List.filter_cons, hp, hq, ih]

theorem find_eq_filter_head (p : α → Bool) (l : List α) :
    l.find? p = (l.filter p).head? := by
  induction l with
  | nil => rfl
  | cons a rest ih =>
    by_cases hp : p a
    · rw [List.find?_cons_of_pos _ hp, List.filter_cons_of_pos hp]
      rfl
    · rw [List.find?_cons_of_neg _ hp, List.filter_cons_of_neg hp, ih]

/-- Claim C6: with a non-empty list and no (truthy) exactId, the two substring
filters act conjunctively when both are present — case-sensitive substring on
url AND substring on title — and the selector returns the first surviving
target in original discovery order (the first list element satisfying the
conjunction); being a pure function, the result is determined by its
arguments. -/
theorem filters_conjunctive_first_match (targets : List Target) (flags : Flags)
    (hne : targets ≠ []) (hnt : truthyS flags.target = false)
    (hu : truthyS flags.urlContains = true) (hti : truthyS flags.titleContains = true) :
    pickTarget targets flags =
      match targets.find? (fun t =>
          strIncludes (t.url.getD "") (flags.urlContains.getD "")
          && strIncludes (t.title.getD "") (flags.titleContains.getD "")) with
      | some t => PickResult.ok t
      | none => PickResult.err "No targets matched the provided filters" := by
  have hlen : ¬ targets.length = 0 := by
    simpa [List.length_eq_zero] using hne
  have hf : applyFilters targets flags =
      (targets.filter (fun t => strIncludes (t.url.getD "") (flags.urlContains.getD ""))).filter
        (fun t => strIncludes (t.title.getD "") (flags.titleContains.getD "")) := by
    unfold applyFilters
    rw [hu, hti]
    simp
  unfold pickTarget
  rw [if_neg hlen, hnt]
  simp only [Bool.false_eq_true, if_false]
  rw [hf, filter_filter_and, find_eq_filter_head]
  cases targets.filter (fun t =>
      strIncludes (t.url.getD "") (flags.urlContains.getD "")
      && strIncludes (t.title.getD "") (flags.titleContains.getD "")) with
  | nil => rfl
  | cons t rest => rfl

/-- The two targets of the spec's Scenario A. -/
def tA : Target := ⟨some "A", some "http://x", some "Foo"⟩

/-- See `tA`. -/
def tB : Target := ⟨some "B", some "http://y", some "Bar"⟩

/-- Witness for C6: with both filters supplied, target B is the first (and
only) survivor of the conjunction and is selected. -/
theorem filters_conjunctive_first_match_witness :
    pickTarget [tA, tB] ⟨none, some "y", some "Bar"⟩ = PickResult.ok tB :=
  (filters_conjunctive_first_match [tA, tB] ⟨none, some "y", some "Bar"⟩
    (by decide) rfl rfl rfl).trans (by decide)

/-- Claim C7 (amended): with a truthy exactId the selector returns the first
target whose id equals it, never applying the substring filters, and when no
target has that id it fails with the code's message
"Target id not found: <id>" — not the spec's "target not found". -/
theorem exact_id_branch (targets : List Target) (flags : Flags)
    (hne : targets ≠ []) (ht : truthyS flags.target = true) :
    pickTarget targets flags =
      match targets.find? (fun t => t.id == flags.target) with
      | some t => PickResult.ok t
      | none => PickResult.err ("Target id not found: " ++ flags.target.getD "") := by
  have hlen : ¬ targets.length = 0 := by
    simpa [List.length_eq_zero] using hne
  unfold pickTarget
  rw [if_neg hlen, ht]
  simp only [if_true]

/-- Witness for C7: exact id "B" is honoured even though both substring
filters are supplied and would match nothing. -/
theorem exact_id_branch_witness :
    pickTarget [tA, tB] ⟨some "B", some "zzz", some "qqq"⟩ = PickResult.ok tB :=
  (exact_id_branch [tA, tB] ⟨some "B", some "zzz", some "qqq"⟩ (by decide) rfl).trans (by decide)

/-- Counterexample for C7 as stated: the unknown-id failure message is
"Target id not found: B", not the spec's quoted "target not found". -/
theorem exact_id_message_counterexample :
    pickTarget [tA] ⟨some "B", none, none⟩ = PickResult.err "Target id not found: B"
    ∧ pickTarget [tA] ⟨some "B", none, none⟩ ≠ PickResult.err "target not found" := by
  decide

/-- Claim C8 (amended): an empty target list fails — for any criteria,
including an exactId — with the code's message "No page targets found" (not
"no targets"); a non-empty list whose survivors are eliminated by the
substring filters (no exactId) fails with "No targets matched the provided
filters" (not "no match"). -/
theorem empty_and_filtered_out :
    (∀ fl : Flags, pickTarget [] fl = PickResult.err "No page targets found")
    ∧ (∀ (targets : List Target) (fl : Flags), targets ≠ [] → truthyS fl.target = false →
        applyFilters targets fl = [] →
        pickTarget targets fl = PickResult.err "No targets matched the provided filters") := by
  constructor
  · intro fl
    rfl
  · intro targets fl hne hnt hfe
    have hlen : ¬ targets.length = 0 := by
      simpa [List.length_eq_zero] using hne
    unfold pickTarget
    rw [if_neg hlen, hnt]
    simp only [Bool.false_eq_true, if_false]
    rw [hfe]

/-- Witness for C8: the empty list fails with the no-targets error; a list
whose only target survives neither filter fails with the no-match error. -/
theorem empty_and_filtered_out_witness :
    pickTarget [] ⟨none, none, none⟩ = PickResult.err "No page targets found"
    ∧ pickTarget [tA] ⟨none, some "zzz", none⟩
        = PickResult.err "No targets matched the provided filters" :=
  ⟨empty_and_filtered_out.1 ⟨none, none, none⟩,
   empty_and_filtered_out.2 [tA] ⟨none, some "zzz", none⟩ (by decide) rfl (by decide)⟩

/-- Counterexample for C8 as stated: both failure messages differ from the
spec's quoted "no targets" and "no match". -/
theorem selection_messages_counterexample :
    (pickTarget [] ⟨none, none, none⟩ = PickResult.err "No page targets found"
      ∧ pickTarget [] ⟨none, none, none⟩ ≠ PickResult.err "no targets")
    ∧ (pickTarget [tA] ⟨none, some "zzz", none⟩
          = PickResult.err "No targets matched the provided filters"
      ∧ pickTarget [tA] ⟨none, some "zzz", none⟩ ≠ PickResult.err "no match") := by
  decide

/-- Claim C9: once the client is connected, `withClient` runs `close()` on
every exit path — for every combination of outcomes of the three
domain-enable calls and the caller-supplied body, the executed action trace
contains `close` and ends with it, and the `try` block's abrupt completion
(if any) is re-raised unchanged after it. -/
theorem close_on_every_path (connect : Except String Unit) (r : SessionRun)
    (hc : connect = Except.ok ()) :
    SessionAct.close ∈ (withClient connect r).1
    ∧ (withClient connect r).1.getLast? = some SessionAct.close
    ∧ (withClient connect r).2 = (tryBlock r).2 := by
  subst hc
  show SessionAct.close ∈ (tryBlock r).1 ++ [SessionAct.close]
    ∧ ((tryBlock r).1 ++ [SessionAct.close]).getLast? = some SessionAct.close
    ∧ (tryBlock r).2 = (tryBlock r).2
  refine ⟨List.mem_append.mpr (Or.inr (List.mem_singleton.mpr rfl)), ?_, rfl⟩
  exact List.getLast?_concat _

/-- Witness for C9: a connected session whose body throws still closes last
and re-raises the body's error. -/
theorem close_on_every_path_witness :
    SessionAct.close ∈ (withClient (Except.ok ())
        ⟨Except.ok (), Except.ok (), Except.ok (), Except.error "boom"⟩).1
    ∧ (withClient (Except.ok ())
        ⟨Except.ok (), Except.ok (), Except.ok (), Except.error "boom"⟩).1.getLast?
        = some SessionAct.close
    ∧ (withClient (Except.ok ())
        ⟨Except.ok (), Except.ok (), Except.ok (), Except.error "boom"⟩).2
        = (tryBlock ⟨Except.ok (), Except.ok (), Except.ok (), Except.error "boom"⟩).2 :=
  close_on_every_path (Except.ok ())
    ⟨Except.ok (), Except.ok (), Except.ok (), Except.error "boom"⟩ rfl

end CDP
